import Mathlib

/-!
Shallow embedding of the computational core of the `smt-data-exporter`
repository: the monthly aggregation and trailing-12-month average of
`lambda_function.calculate_trailing_12_month_average` (pure Python,
dictionary grouping), the pandas rolling-window variant
`main.calculate_trailing_12_month_average`, and the target calculation of
`update_electric_bill_target`.

Usage figures (Python floats) are modelled as exact rationals; dates as
(year, month, day) triples of naturals.  Month keys are the character
sequences of the `"YYYY-MM"` strings produced by
`start_date.strftime("%Y-%m")`, and `sorted` over them is lexicographic
comparison by code point, exactly as in CPython.
-/

/-- A calendar date at day granularity (Python `datetime`; only year,
month and day matter here).  Python restricts `year` to 1..9999 and
`month` to 1..12; the embedding keeps plain naturals and states those
bounds as hypotheses where a claim needs them. -/
structure Date where
  year : Nat
  month : Nat
  day : Nat
deriving DecidableEq

/-- `models.BillingData`: one billing record of the monthly report. -/
structure BillingData where
  start_date : Date
  end_date : Date
  revision_date : Date
  actual_kwh : ℚ
  metered_kw : ℚ
  billed_kw : ℚ
  metered_kva : ℚ
  billed_kva : ℚ
deriving DecidableEq

/-- A month key: the characters of the `"YYYY-MM"` string. -/
abbrev MonthKey := List Char

/-- Decimal digits of a year as printed by `strftime("%Y")` on glibc
(no zero padding).  `datetime` years never exceed 9999, so four digits
suffice. -/
def yearChars (y : Nat) : List Char :=
  if y < 10 then [Nat.digitChar y]
  else if y < 100 then [Nat.digitChar (y / 10), Nat.digitChar (y % 10)]
  else if y < 1000 then
    [Nat.digitChar (y / 100), Nat.digitChar (y / 10 % 10), Nat.digitChar (y % 10)]
  else
    [Nat.digitChar (y / 1000), Nat.digitChar (y / 100 % 10),
      Nat.digitChar (y / 10 % 10), Nat.digitChar (y % 10)]

/-- Two zero-padded decimal digits of a month, as printed by `"%m"`. -/
def monthChars (m : Nat) : List Char :=
  [Nat.digitChar (m / 10), Nat.digitChar (m % 10)]

/-- The `"YYYY-MM"` key of a (year, month) period. -/
def keyOfPeriod (p : Nat × Nat) : MonthKey :=
  yearChars p.1 ++ '-' :: monthChars p.2

/-- `bd.start_date.strftime("%Y-%m")`. -/
def monthKey (d : Date) : MonthKey := keyOfPeriod (d.year, d.month)

/-- Python string `<`: lexicographic comparison by code point. -/
def charListLt : List Char → List Char → Bool
  | [], [] => false
  | [], _ :: _ => true
  | _ :: _, [] => false
  | a :: as, b :: bs =>
    if a < b then true else if b < a then false else charListLt as bs

/-- Python `≤` on the `(month_key, usage)` tuples compared by
`sorted(monthly_usage.items())`: keys first, values break ties. -/
def itemLe (a b : MonthKey × ℚ) : Bool :=
  if charListLt a.1 b.1 then true
  else if charListLt b.1 a.1 then false
  else decide (a.2 ≤ b.2)

/-- First-match lookup in an insertion-ordered association list
(Python `dict` access). -/
def dictGet (d : List (MonthKey × ℚ)) (k : MonthKey) : Option ℚ :=
  match d with
  | [] => none
  | (k', v) :: rest => if k' = k then some v else dictGet rest k

/-- `monthly_usage[month_key] += v` on a `defaultdict(float)`: add into
the existing bucket, or append a fresh one. -/
def addUsage (d : List (MonthKey × ℚ)) (k : MonthKey) (v : ℚ) : List (MonthKey × ℚ) :=
  match d with
  | [] => [(k, v)]
  | (k', v') :: rest =>
    if k' = k then (k', v' + v) :: rest else (k', v') :: addUsage rest k v

/-- `trailing_averages[month] = avg`: overwrite the existing binding or
append a fresh one. -/
def dictSet (d : List (MonthKey × ℚ)) (k : MonthKey) (v : ℚ) : List (MonthKey × ℚ) :=
  match d with
  | [] => [(k, v)]
  | (k', v') :: rest =>
    if k' = k then (k', v) :: rest else (k', v') :: dictSet rest k v

namespace LambdaFunction

/-- The grouping loop of `lambda_function.calculate_trailing_12_month_average`:
`monthly_usage[bd.start_date.strftime("%Y-%m")] += bd.actual_kwh` over a
`defaultdict(float)`. -/
def groupByMonth (billing_data : List BillingData) : List (MonthKey × ℚ) :=
  billing_data.foldl
    (fun acc bd => addUsage acc (monthKey bd.start_date) bd.actual_kwh) []

/-- `sorted_months = sorted(monthly_usage.items())`. -/
def sortedMonths (billing_data : List BillingData) : List (MonthKey × ℚ) :=
  (groupByMonth billing_data).mergeSort itemLe

/-- The `for i in range(len(sorted_months))` loop building
`trailing_averages`.  `i - 11` on naturals truncates at zero, exactly
`max(0, i - 11)`; the slice `sorted_months[start_idx : i + 1]` is
`drop start_idx` then `take (i + 1 - start_idx)`. -/
def trailingAverages (sm : List (MonthKey × ℚ)) : List (MonthKey × ℚ) :=
  (List.range sm.length).foldl
    (fun acc i =>
      match sm[i]? with
      | none => acc
      | some (month, _) =>
        let window := (sm.drop (i - 11)).take (i + 1 - (i - 11))
        if 12 ≤ window.length then
          dictSet acc month ((window.map Prod.snd).sum / 12)
        else acc)
    []

/-- `lambda_function.calculate_trailing_12_month_average`, with
`trailing_averages.get(latest_month, 0.0)` rendered as `Option.getD 0`. -/
def calculate_trailing_12_month_average (billing_data : List BillingData) : ℚ :=
  if billing_data.isEmpty then 0
  else
    let sorted_months := sortedMonths billing_data
    if sorted_months.isEmpty then 0
    else
      let trailing_averages := trailingAverages sorted_months
      if trailing_averages.isEmpty then 0
      else
        match sorted_months.getLast? with
        | none => 0
        | some latest => (dictGet trailing_averages latest.1).getD 0

/-- The same loop with the `sorted_months[i]` subscript made explicitly
fallible (`none` = `IndexError`). -/
def trailingAveragesChecked (sm : List (MonthKey × ℚ)) :
    Option (List (MonthKey × ℚ)) :=
  (List.range sm.length).foldl
    (fun acc i =>
      acc.bind fun d =>
        (sm[i]?).map fun p =>
          let window := (sm.drop (i - 11)).take (i + 1 - (i - 11))
          if 12 ≤ window.length then
            dictSet d p.1 ((window.map Prod.snd).sum / 12)
          else d)
    (some [])

/-- `calculate_trailing_12_month_average` with every operation that can
raise in Python made explicitly fallible: the `sorted_months[i]`
subscripts and the `sorted_months[-1]` subscript return `none` out of
bounds; `dict.get(key, 0.0)` never raises and keeps its default. -/
def calc_checked (billing_data : List BillingData) : Option ℚ :=
  if billing_data.isEmpty then some 0
  else
    let sorted_months := sortedMonths billing_data
    if sorted_months.isEmpty then some 0
    else
      (trailingAveragesChecked sorted_months).bind fun trailing_averages =>
        if trailing_averages.isEmpty then some 0
        else
          (sorted_months.getLast?).map fun latest =>
            (dictGet trailing_averages latest.1).getD 0

end LambdaFunction

/-- The (year, month) period of a record's start date:
`df["Start date"].dt.to_period("M")`, and the spec's MonthKey notion of
"the calendar month a record falls in". -/
def period (bd : BillingData) : Nat × Nat :=
  (bd.start_date.year, bd.start_date.month)

/-- Boolean chronological `≤` on (year, month) periods (pandas `Period`
ordering; year first, then month). -/
def pairLe (p q : Nat × Nat) : Bool :=
  decide (p.1 < q.1) || (decide (p.1 = q.1) && decide (p.2 ≤ q.2))

namespace Main

/-- `df.groupby(df["Start date"].dt.to_period("M"))["Actual kWh"].sum()`:
one row per distinct period, in ascending period order (pandas sorts the
group keys), each row holding the summed usage of its group. -/
def pandasMonthly (billing_data : List BillingData) : List ((Nat × Nat) × ℚ) :=
  (((billing_data.map period).dedup).mergeSort pairLe).map fun p =>
    (p, ((billing_data.filter fun bd => period bd = p).map (·.actual_kwh)).sum)

/-- `rolling(window=12).mean()` over the monthly totals: `none` is `NaN`
(fewer than 12 rows in the window), otherwise the mean of the 12 rows
ending at the current one. -/
def rollingMean12 (xs : List ℚ) : List (Option ℚ) :=
  (List.range xs.length).map fun i =>
    if 11 ≤ i then some (((xs.drop (i - 11)).take 12).sum / 12) else none

/-- `main.calculate_trailing_12_month_average` (pandas variant): the
trailing-average column at `monthly_usage.index.max()` — the last row,
since the grouped index is ascending — with `NaN` mapped to `0.0`. -/
def calculate_trailing_12_month_average (billing_data : List BillingData) : ℚ :=
  if billing_data.isEmpty then 0
  else
    let monthly := pandasMonthly billing_data
    match (rollingMean12 (monthly.map Prod.snd)).getLast? with
    | none => 0
    | some none => 0
    | some (some v) => v

end Main

/-- Truncation toward zero of a rational: Python `int(...)` applied to a
float. -/
def int_trunc (q : ℚ) : Int :=
  if 0 ≤ q.num then ((q.num.natAbs / q.den : Nat) : Int)
  else -((q.num.natAbs / q.den : Nat) : Int)

/-- The numeric content of `update_electric_bill_target` (identical in
`lambda_function.py` and `main.py`): `target = trailing_avg_kwh *
current_kwh_rate` and `goal_target = int(target * 1000)` (YNAB
milliunits).  The annotation string is out of scope. -/
def update_electric_bill_target (trailing_avg_kwh current_kwh_rate : ℚ) : ℚ × Int :=
  let target := trailing_avg_kwh * current_kwh_rate
  let goal_target := int_trunc (target * 1000)
  (target, goal_target)

/-- Specification-side: truncation toward zero, stated through Mathlib's
floor and ceiling. -/
def truncSpec (q : ℚ) : Int :=
  if 0 ≤ q then ⌊q⌋ else ⌈q⌉

/-- Specification-side: the distinct months present in the input, in
chronological (ascending) order. -/
def monthsChrono (billing_data : List BillingData) : List (Nat × Nat) :=
  ((billing_data.map period).dedup).mergeSort pairLe

/-- Specification-side: the summed `actual_kwh` of all records whose
`start_date` falls in month `p`. -/
def monthTotal (billing_data : List BillingData) (p : Nat × Nat) : ℚ :=
  ((billing_data.filter fun bd => period bd = p).map (·.actual_kwh)).sum

/-- Date validity as `datetime` guarantees it for four-digit years:
the range the lexicographic key order is chronological on. -/
def validDate (d : Date) : Prop :=
  1000 ≤ d.year ∧ d.year ≤ 9999 ∧ 1 ≤ d.month ∧ d.month ≤ 12

instance (d : Date) : Decidable (validDate d) := by
  unfold validDate; exact inferInstance

/-! ### Order lemmas for the comparison functions -/

theorem charListLt_irrefl (a : List Char) : charListLt a a = false := by
  induction a with
  | nil => rfl
  | cons x as ih => simp [charListLt, ih]

theorem charListLt_trans :
    ∀ {a b c : List Char}, charListLt a b = true → charListLt b c = true →
      charListLt a c = true
  | [], [], _, hab, _ => by simp [charListLt] at hab
  | [], _ :: _, [], _, hbc => by simp [charListLt] at hbc
  | [], _ :: _, _ :: _, _, _ => by simp [charListLt]
  | _ :: _, [], _, hab, _ => by simp [charListLt] at hab
  | _ :: _, _ :: _, [], _, hbc => by simp [charListLt] at hbc
  | x :: as, y :: bs, z :: cs, hab, hbc => by
    simp only [charListLt] at hab hbc ⊢
    rcases lt_trichotomy x y with hxy | hxy | hxy
    · rcases lt_trichotomy y z with hyz | hyz | hyz
      · rw [if_pos (lt_trans hxy hyz)]
      · subst hyz; rw [if_pos hxy]
      · rw [if_neg (lt_asymm hyz), if_pos hyz] at hbc; simp at hbc
    · subst hxy
      rw [if_neg (lt_irrefl x), if_neg (lt_irrefl x)] at hab
      rcases lt_trichotomy x z with hxz | hxz | hxz
      · rw [if_pos hxz]
      · subst hxz
        rw [if_neg (lt_irrefl x), if_neg (lt_irrefl x)] at hbc ⊢
        exact charListLt_trans hab hbc
      · rw [if_neg (lt_asymm hxz), if_pos hxz] at hbc; simp at hbc
    · rw [if_neg (lt_asymm hxy), if_pos hxy] at hab; simp at hab

theorem charListLt_connex :
    ∀ {a b : List Char}, charListLt a b = false → charListLt b a = false → a = b
  | [], [], _, _ => rfl
  | [], _ :: _, hab, _ => by simp [charListLt] at hab
  | _ :: _, [], _, hba => by simp [charListLt] at hba
  | x :: as, y :: bs, hab, hba => by
    simp only [charListLt] at hab hba
    by_cases hxy : x < y
    · simp [hxy] at hab
    · by_cases hyx : y < x
      · simp [hyx] at hba
      · have hxey : x = y := le_antisymm (le_of_not_lt hyx) (le_of_not_lt hxy)
        subst hxey
        simp only [if_neg (lt_irrefl x)] at hab hba
        rw [charListLt_connex hab hba]

theorem charListLt_asymm {a b : List Char} (h : charListLt a b = true) :
    charListLt b a = false := by
  cases hba : charListLt b a with
  | false => rfl
  | true => exact absurd (charListLt_trans h hba) (by simp [charListLt_irrefl])

theorem itemLe_trans (a b c : MonthKey × ℚ) (hab : itemLe a b)
    (hbc : itemLe b c) : itemLe a c := by
  unfold itemLe at *
  by_cases h1 : charListLt a.1 b.1 = true
  · by_cases h2 : charListLt b.1 c.1 = true
    · rw [if_pos (charListLt_trans h1 h2)]
    · by_cases h3 : charListLt c.1 b.1 = true
      · rw [if_neg h2, if_pos h3] at hbc; simp at hbc
      · have hbc1 : b.1 = c.1 :=
          charListLt_connex (Bool.eq_false_iff.mpr h2) (Bool.eq_false_iff.mpr h3)
        rw [← hbc1, if_pos h1]
  · by_cases h1' : charListLt b.1 a.1 = true
    · rw [if_neg h1, if_pos h1'] at hab; simp at hab
    · have hab1 : a.1 = b.1 :=
        charListLt_connex (Bool.eq_false_iff.mpr h1) (Bool.eq_false_iff.mpr h1')
      rw [if_neg h1, if_neg h1'] at hab
      rw [hab1]
      by_cases h2 : charListLt b.1 c.1 = true
      · rw [if_pos h2]
      · by_cases h3 : charListLt c.1 b.1 = true
        · rw [if_neg h2, if_pos h3] at hbc; simp at hbc
        · rw [if_neg h2, if_neg h3] at hbc ⊢
          simp only [decide_eq_true_eq] at hab hbc ⊢
          exact le_trans hab hbc

theorem itemLe_total (a b : MonthKey × ℚ) : itemLe a b || itemLe b a := by
  unfold itemLe
  by_cases h1 : charListLt a.1 b.1 = true
  · simp [h1]
  · by_cases h2 : charListLt b.1 a.1 = true
    · simp [h2]
    · rw [if_neg (by simp [h1]), if_neg (by simp [h2]),
        if_neg (by simp [h2]), if_neg (by simp [h1])]
      simpa using le_total a.2 b.2

theorem itemLe_antisymm {a b : MonthKey × ℚ} (hab : itemLe a b)
    (hba : itemLe b a) : a = b := by
  unfold itemLe at hab hba
  by_cases h1 : charListLt a.1 b.1 = true
  · simp [h1, charListLt_asymm h1] at hba
  · by_cases h2 : charListLt b.1 a.1 = true
    · simp [h1, h2] at hab
    · have hk : a.1 = b.1 := charListLt_connex (by simpa using h1) (by simpa using h2)
      rw [if_neg (by simp [h1]), if_neg (by simp [h2])] at hab
      rw [if_neg (by simp [h2]), if_neg (by simp [h1])] at hba
      simp only [decide_eq_true_eq] at hab hba
      exact Prod.ext hk (le_antisymm hab hba)

theorem pairLe_trans (a b c : Nat × Nat) (hab : pairLe a b) (hbc : pairLe b c) :
    pairLe a c := by
  simp only [pairLe, Bool.or_eq_true, Bool.and_eq_true, decide_eq_true_eq] at *
  omega

theorem pairLe_total (a b : Nat × Nat) : pairLe a b || pairLe b a := by
  simp only [pairLe, Bool.or_eq_true, Bool.and_eq_true, decide_eq_true_eq]
  omega

theorem pairLe_antisymm {a b : Nat × Nat} (hab : pairLe a b) (hba : pairLe b a) :
    a = b := by
  simp only [pairLe, Bool.or_eq_true, Bool.and_eq_true, decide_eq_true_eq] at hab hba
  have h1 : a.1 = b.1 := by omega
  have h2 : a.2 = b.2 := by omega
  exact Prod.ext h1 h2

/-! ### Association-list (Python dict) lemmas -/

theorem dictGet_dictSet (d : List (MonthKey × ℚ)) (k k' : MonthKey) (v : ℚ) :
    dictGet (dictSet d k v) k' = if k = k' then some v else dictGet d k' := by
  induction d with
  | nil => by_cases h : k = k' <;> simp [dictSet, dictGet, h]
  | cons p rest ih =>
    obtain ⟨k0, v0⟩ := p
    by_cases h0 : k0 = k
    · subst h0
      simp only [dictSet, if_pos rfl, dictGet]
      by_cases h1 : k0 = k' <;> simp [h1]
    · simp only [dictSet, if_neg h0, dictGet, ih]
      by_cases h1 : k0 = k'
      · have h2 : ¬k = k' := fun hh => h0 (h1.trans hh.symm)
        simp [h1, h2]
      · simp [h1]

theorem dictGet_addUsage (d : List (MonthKey × ℚ)) (k k' : MonthKey) (v : ℚ) :
    dictGet (addUsage d k v) k' =
      if k = k' then some ((dictGet d k').getD 0 + v) else dictGet d k' := by
  induction d with
  | nil => by_cases h : k = k' <;> simp [addUsage, dictGet, h]
  | cons p rest ih =>
    obtain ⟨k0, v0⟩ := p
    by_cases h0 : k0 = k
    · subst h0
      simp only [addUsage, if_pos rfl, dictGet]
      by_cases h1 : k0 = k' <;> simp [h1]
    · simp only [addUsage, if_neg h0, dictGet, ih]
      by_cases h1 : k0 = k'
      · have h2 : ¬k = k' := fun hh => h0 (h1.trans hh.symm)
        simp [h1, h2]
      · simp [h1]

theorem map_fst_addUsage (d : List (MonthKey × ℚ)) (k : MonthKey) (v : ℚ) :
    (addUsage d k v).map Prod.fst =
      if k ∈ d.map Prod.fst then d.map Prod.fst else d.map Prod.fst ++ [k] := by
  induction d with
  | nil => simp [addUsage]
  | cons p rest ih =>
    obtain ⟨k0, v0⟩ := p
    by_cases h0 : k0 = k
    · subst h0; simp [addUsage]
    · simp only [addUsage, if_neg h0, List.map_cons, ih]
      have h1 : ¬k = k0 := fun hh => h0 hh.symm
      by_cases h2 : k ∈ rest.map Prod.fst <;> simp [h1, h2]

theorem dictGet_eq_none_iff (d : List (MonthKey × ℚ)) (k : MonthKey) :
    dictGet d k = none ↔ k ∉ d.map Prod.fst := by
  induction d with
  | nil => simp [dictGet]
  | cons p rest ih =>
    obtain ⟨k0, v0⟩ := p
    by_cases h0 : k0 = k
    · subst h0; simp [dictGet]
    · simp only [dictGet, if_neg h0, ih, List.map_cons, List.mem_cons]
      have : ¬k = k0 := fun hh => h0 hh.symm
      simp [this]

theorem dictGet_isSome_iff (d : List (MonthKey × ℚ)) (k : MonthKey) :
    (dictGet d k).isSome = true ↔ k ∈ d.map Prod.fst := by
  have h := dictGet_eq_none_iff d k
  cases hd : dictGet d k with
  | none =>
    rw [hd] at h
    simp only [Option.isSome_none, Bool.false_eq_true, false_iff]
    exact h.mp rfl
  | some v =>
    rw [hd] at h
    simp only [Option.isSome_some, true_iff]
    by_contra hmem
    have hchk := h.mpr hmem
    simp at hchk

theorem mem_of_dictGet_eq_some {d : List (MonthKey × ℚ)} {k : MonthKey} {v : ℚ}
    (h : dictGet d k = some v) : (k, v) ∈ d := by
  induction d with
  | nil => simp [dictGet] at h
  | cons p rest ih =>
    obtain ⟨k0, v0⟩ := p
    by_cases h0 : k0 = k
    · subst h0
      simp only [dictGet, if_pos rfl] at h
      simp only [eq_self_iff_true, if_true, Option.some.injEq] at h
      subst h
      exact List.mem_cons_self _ _
    · simp only [dictGet, if_neg h0] at h
      exact List.mem_cons_of_mem _ (ih h)

theorem dictGet_eq_some_of_mem {d : List (MonthKey × ℚ)} {p : MonthKey × ℚ}
    (hnd : (d.map Prod.fst).Nodup) (h : p ∈ d) : dictGet d p.1 = some p.2 := by
  induction d with
  | nil => simp at h
  | cons q rest ih =>
    obtain ⟨k0, v0⟩ := q
    rcases List.mem_cons.mp h with h | h
    · subst h; simp [dictGet]
    · have hk : k0 ≠ p.1 := by
        intro hh
        have : p.1 ∈ rest.map Prod.fst := List.mem_map_of_mem Prod.fst h
        simp only [List.map_cons, List.nodup_cons] at hnd
        exact hnd.1 (hh ▸ this)
      simp only [dictGet, if_neg hk]
      exact ih (by simp only [List.map_cons, List.nodup_cons] at hnd; exact hnd.2) h

/-! ### Characterization of the grouping loop -/

/-- The summed usage of all records whose start date formats to key `k`
(proof-side abbreviation). -/
def keyTotal (billing_data : List BillingData) (k : MonthKey) : ℚ :=
  ((billing_data.filter fun bd => monthKey bd.start_date = k).map (·.actual_kwh)).sum

theorem keyTotal_nil (k : MonthKey) : keyTotal [] k = 0 := rfl

theorem keyTotal_cons (bd : BillingData) (bs : List BillingData) (k : MonthKey) :
    keyTotal (bd :: bs) k =
      if monthKey bd.start_date = k then bd.actual_kwh + keyTotal bs k
      else keyTotal bs k := by
  by_cases h : monthKey bd.start_date = k <;> simp [keyTotal, List.filter_cons, h]

theorem foldl_addUsage_getD (bs : List BillingData) (acc : List (MonthKey × ℚ))
    (k : MonthKey) :
    (dictGet (bs.foldl (fun a bd => addUsage a (monthKey bd.start_date) bd.actual_kwh)
        acc) k).getD 0 = (dictGet acc k).getD 0 + keyTotal bs k := by
  induction bs generalizing acc with
  | nil => simp [keyTotal_nil]
  | cons bd bs ih =>
    simp only [List.foldl_cons, ih, dictGet_addUsage, keyTotal_cons]
    by_cases h : monthKey bd.start_date = k
    · simp [h, add_assoc]
    · simp [h]

theorem foldl_addUsage_isSome (bs : List BillingData) (acc : List (MonthKey × ℚ))
    (k : MonthKey) :
    (dictGet (bs.foldl (fun a bd => addUsage a (monthKey bd.start_date) bd.actual_kwh)
        acc) k).isSome =
      ((dictGet acc k).isSome || bs.any fun bd => monthKey bd.start_date = k) := by
  induction bs generalizing acc with
  | nil => simp
  | cons bd bs ih =>
    simp only [List.foldl_cons, ih, dictGet_addUsage, List.any_cons]
    by_cases h : monthKey bd.start_date = k
    · simp [h]
    · simp [h]

theorem foldl_addUsage_nodup (bs : List BillingData) (acc : List (MonthKey × ℚ))
    (hnd : (acc.map Prod.fst).Nodup) :
    ((bs.foldl (fun a bd => addUsage a (monthKey bd.start_date) bd.actual_kwh)
        acc).map Prod.fst).Nodup := by
  induction bs generalizing acc with
  | nil => exact hnd
  | cons bd bs ih =>
    refine ih _ ?_
    rw [map_fst_addUsage]
    by_cases h : monthKey bd.start_date ∈ acc.map Prod.fst
    · simpa [h] using hnd
    · rw [if_neg h]
      refine List.Nodup.append hnd (List.nodup_singleton _) ?_
      intro x hx hk
      rw [List.mem_singleton] at hk
      subst hk
      exact h hx

namespace LambdaFunction

theorem groupByMonth_getD (bs : List BillingData) (k : MonthKey) :
    (dictGet (groupByMonth bs) k).getD 0 = keyTotal bs k := by
  simpa [groupByMonth, dictGet] using foldl_addUsage_getD bs [] k

theorem groupByMonth_isSome (bs : List BillingData) (k : MonthKey) :
    (dictGet (groupByMonth bs) k).isSome =
      bs.any fun bd => monthKey bd.start_date = k := by
  simpa [groupByMonth, dictGet] using foldl_addUsage_isSome bs [] k

theorem groupByMonth_nodup (bs : List BillingData) :
    ((groupByMonth bs).map Prod.fst).Nodup :=
  foldl_addUsage_nodup bs [] (by simp)

theorem groupByMonth_mem_keys_iff (bs : List BillingData) (k : MonthKey) :
    k ∈ (groupByMonth bs).map Prod.fst ↔ ∃ bd ∈ bs, monthKey bd.start_date = k := by
  rw [← dictGet_isSome_iff, groupByMonth_isSome]
  simp [List.any_eq_true]

theorem groupByMonth_get_eq_some_iff (bs : List BillingData) (k : MonthKey) (v : ℚ) :
    dictGet (groupByMonth bs) k = some v ↔
      (∃ bd ∈ bs, monthKey bd.start_date = k) ∧ v = keyTotal bs k := by
  constructor
  · intro h
    have h1 := groupByMonth_isSome bs k
    have h2 := groupByMonth_getD bs k
    rw [h] at h1 h2
    refine ⟨?_, by simpa using h2⟩
    simpa [List.any_eq_true] using h1.symm
  · rintro ⟨⟨bd, hbd, hk⟩, rfl⟩
    have h1 : (dictGet (groupByMonth bs) k).isSome = true := by
      rw [groupByMonth_isSome]
      simp only [List.any_eq_true, decide_eq_true_eq]
      exact ⟨bd, hbd, hk⟩
    obtain ⟨v', hv'⟩ := Option.isSome_iff_exists.mp h1
    have h2 := groupByMonth_getD bs k
    rw [hv'] at h2 ⊢
    simpa using congrArg some h2

theorem mem_groupByMonth_iff (bs : List BillingData) (p : MonthKey × ℚ) :
    p ∈ groupByMonth bs ↔ dictGet (groupByMonth bs) p.1 = some p.2 :=
  ⟨dictGet_eq_some_of_mem (groupByMonth_nodup bs), fun h => mem_of_dictGet_eq_some h⟩

/-! ### Properties of the sorted monthly series -/

theorem sortedMonths_perm (bs : List BillingData) :
    List.Perm (sortedMonths bs) (groupByMonth bs) :=
  List.mergeSort_perm _ _

theorem sortedMonths_pairwise (bs : List BillingData) :
    (sortedMonths bs).Pairwise fun a b => itemLe a b :=
  List.sorted_mergeSort itemLe_trans itemLe_total _

theorem sortedMonths_nodup (bs : List BillingData) :
    ((sortedMonths bs).map Prod.fst).Nodup :=
  (((sortedMonths_perm bs).map Prod.fst).nodup_iff).mpr (groupByMonth_nodup bs)

theorem sortedMonths_length (bs : List BillingData) :
    (sortedMonths bs).length =
      ((bs.map fun bd => monthKey bd.start_date).dedup).length := by
  have h1 : (sortedMonths bs).length = ((groupByMonth bs).map Prod.fst).length := by
    simpa using (sortedMonths_perm bs).length_eq
  have h2 : List.Perm ((groupByMonth bs).map Prod.fst)
      ((bs.map fun bd => monthKey bd.start_date).dedup) := by
    rw [List.perm_ext_iff_of_nodup (groupByMonth_nodup bs) (List.nodup_dedup _)]
    intro k
    rw [groupByMonth_mem_keys_iff, List.mem_dedup, List.mem_map]
  rw [h1, h2.length_eq]

/-! ### Properties of the trailing-averages loop -/

theorem foldl_eq_self_of_id {β : Type} {f : β → Nat → β} {l : List Nat}
    (h : ∀ b, ∀ i ∈ l, f b i = b) : ∀ acc, l.foldl f acc = acc := by
  induction l with
  | nil => intro acc; rfl
  | cons x xs ih =>
    intro acc
    rw [List.foldl_cons, h acc x (List.mem_cons_self _ _)]
    exact ih (fun b i hi => h b i (List.mem_cons_of_mem _ hi)) acc

theorem trailingAverages_eq_nil (sm : List (MonthKey × ℚ)) (h : sm.length < 12) :
    trailingAverages sm = [] := by
  unfold trailingAverages
  refine foldl_eq_self_of_id ?_ []
  intro b i hi
  rw [List.mem_range] at hi
  have hi11 : i - 11 = 0 := by omega
  rcases hp : sm[i]? with _ | p
  · simp
  · obtain ⟨month, v⟩ := p
    simp only
    rw [if_neg]
    simp only [List.length_take, List.length_drop, hi11]
    omega

theorem trailingAverages_range_get (sm : List (MonthKey × ℚ))
    (hnd : (sm.map Prod.fst).Nodup) :
    ∀ n, (hn : n ≤ sm.length) → ∀ j, (hj : j < n) → 11 ≤ j →
      dictGet ((List.range n).foldl
        (fun acc i =>
          match sm[i]? with
          | none => acc
          | some (month, _) =>
            let window := (sm.drop (i - 11)).take (i + 1 - (i - 11))
            if 12 ≤ window.length then
              dictSet acc month ((window.map Prod.snd).sum / 12)
            else acc)
        []) (sm.get ⟨j, lt_of_lt_of_le hj hn⟩).1 =
      some ((((sm.drop (j - 11)).take 12).map Prod.snd).sum / 12) := by
  intro n
  induction n with
  | zero => intro _ j hj; omega
  | succ n ih =>
    intro hn j hj hj11
    rw [List.range_succ, List.foldl_append, List.foldl_cons, List.foldl_nil]
    have hnlen : n < sm.length := by omega
    rw [List.getElem?_eq_getElem hnlen]
    rcases Nat.lt_or_ge n 11 with hn11 | hn11
    · -- window too short at position n: accumulator unchanged
      have hj' : j < n := by omega
      simp only
      rw [if_neg]
      · exact ih (by omega) j hj' hj11
      · simp only [List.length_take, List.length_drop]
        omega
    · -- full window at position n: a dictSet happens
      have hw : 12 ≤ ((sm.drop (n - 11)).take (n + 1 - (n - 11))).length := by
        simp only [List.length_take, List.length_drop]
        omega
      simp only
      rw [if_pos hw, dictGet_dictSet]
      rcases Nat.lt_or_ge j n with hj' | hj'
      · -- j strictly below n: keys differ by nodup, fall through
        rw [if_neg, ih (by omega) j hj' hj11]
        intro hkey
        have hget : (sm.map Prod.fst).get ⟨n, by simpa using hnlen⟩ =
            (sm.map Prod.fst).get ⟨j, by simp; omega⟩ := by
          simp only [List.get_eq_getElem, List.getElem_map]
          simpa using hkey
        have := (hnd.get_inj_iff).mp hget
        simp only [Fin.mk.injEq] at this
        omega
      · -- j = n
        have hjn : j = n := by omega
        subst hjn
        rw [if_pos]
        · have h12 : j + 1 - (j - 11) = 12 := by omega
          rw [h12]
        · simp [List.get_eq_getElem]

theorem trailingAverages_get (sm : List (MonthKey × ℚ))
    (hnd : (sm.map Prod.fst).Nodup) (j : Nat) (hj : j < sm.length) (hj11 : 11 ≤ j) :
    dictGet (trailingAverages sm) (sm.get ⟨j, hj⟩).1 =
      some ((((sm.drop (j - 11)).take 12).map Prod.snd).sum / 12) := by
  exact trailingAverages_range_get sm hnd sm.length le_rfl j hj hj11

end LambdaFunction

namespace LambdaFunction

/-! ### Characterization of the full computation -/

theorem calc_eq_zero_of_lt12 (bs : List BillingData)
    (h : (sortedMonths bs).length < 12) :
    calculate_trailing_12_month_average bs = 0 := by
  unfold calculate_trailing_12_month_average
  by_cases hbs : bs.isEmpty
  · rw [if_pos hbs]
  · rw [if_neg hbs]
    by_cases hsm : (sortedMonths bs).isEmpty
    · rw [if_pos hsm]
    · rw [if_neg hsm]
      have hta : trailingAverages (sortedMonths bs) = [] :=
        trailingAverages_eq_nil _ h
      simp [hta]

theorem calc_eq_of_ge12 (bs : List BillingData)
    (h12 : 12 ≤ (sortedMonths bs).length) :
    calculate_trailing_12_month_average bs =
      (((sortedMonths bs).drop ((sortedMonths bs).length - 12)).map Prod.snd).sum
        / 12 := by
  have hbs : bs.isEmpty = false := by
    rcases bs with _ | ⟨b, bs'⟩
    · simp [sortedMonths, groupByMonth] at h12
    · rfl
  have hlen : 0 < (sortedMonths bs).length := by omega
  have hsm : (sortedMonths bs).isEmpty = false := by
    rcases hsm' : sortedMonths bs with _ | ⟨a, l⟩
    · rw [hsm'] at hlen; simp at hlen
    · rfl
  have hnd := sortedMonths_nodup bs
  have hj : (sortedMonths bs).length - 1 < (sortedMonths bs).length := by omega
  have hj11 : 11 ≤ (sortedMonths bs).length - 1 := by omega
  have hget := trailingAverages_get (sortedMonths bs) hnd _ hj hj11
  have hlast : (sortedMonths bs).getLast? =
      some ((sortedMonths bs).get ⟨(sortedMonths bs).length - 1, hj⟩) := by
    rw [List.getLast?_eq_getElem?, List.getElem?_eq_getElem hj]
    simp [List.get_eq_getElem]
  have hta_ne : (trailingAverages (sortedMonths bs)).isEmpty = false := by
    rcases hta : trailingAverages (sortedMonths bs) with _ | ⟨a, l⟩
    · rw [hta] at hget; simp [dictGet] at hget
    · rfl
  simp only [calculate_trailing_12_month_average, hbs, hsm, hta_ne,
    Bool.false_eq_true, if_false, hlast]
  rw [hget]
  simp only [Option.getD_some]
  have e1 : (sortedMonths bs).length - 1 - 11 = (sortedMonths bs).length - 12 := by
    omega
  rw [e1]
  rw [List.take_all_of_le (by simp; omega)]

theorem trailingAveragesChecked_range (sm : List (MonthKey × ℚ)) :
    ∀ n, n ≤ sm.length → ∀ d : List (MonthKey × ℚ),
      (List.range n).foldl
        (fun acc i =>
          acc.bind fun d =>
            (sm[i]?).map fun p =>
              let window := (sm.drop (i - 11)).take (i + 1 - (i - 11))
              if 12 ≤ window.length then
                dictSet d p.1 ((window.map Prod.snd).sum / 12)
              else d)
        (some d) =
      some ((List.range n).foldl
        (fun acc i =>
          match sm[i]? with
          | none => acc
          | some (month, _) =>
            let window := (sm.drop (i - 11)).take (i + 1 - (i - 11))
            if 12 ≤ window.length then
              dictSet acc month ((window.map Prod.snd).sum / 12)
            else acc)
        d) := by
  intro n
  induction n with
  | zero => intro _ d; rfl
  | succ n ih =>
    intro hn d
    rw [List.range_succ, List.foldl_append, List.foldl_append,
      List.foldl_cons, List.foldl_cons, List.foldl_nil, List.foldl_nil,
      ih (by omega)]
    rw [List.getElem?_eq_getElem (by omega)]
    rfl

theorem trailingAveragesChecked_eq (sm : List (MonthKey × ℚ)) :
    trailingAveragesChecked sm = some (trailingAverages sm) :=
  trailingAveragesChecked_range sm sm.length le_rfl []

theorem calc_checked_eq (bs : List BillingData) :
    calc_checked bs = some (calculate_trailing_12_month_average bs) := by
  unfold calc_checked calculate_trailing_12_month_average
  by_cases hbs : bs.isEmpty
  · simp [hbs]
  · rw [if_neg hbs, if_neg hbs]
    by_cases hsm : (sortedMonths bs).isEmpty
    · simp [hsm]
    · rw [if_neg hsm, if_neg hsm, trailingAveragesChecked_eq, Option.some_bind]
      by_cases hta : (trailingAverages (sortedMonths bs)).isEmpty
      · simp [hta]
      · rw [if_neg hta, if_neg hta]
        have hne : sortedMonths bs ≠ [] := by
          intro hh; rw [hh] at hsm; exact hsm rfl
        obtain ⟨x, hx⟩ :=
          Option.isSome_iff_exists.mp (List.getLast?_isSome.mpr hne)
        rw [hx]
        rfl

end LambdaFunction

/-! ### The lexicographic key order is chronological on valid dates -/

/-- Validity of a (year, month) period: what `datetime` guarantees for
four-digit years. -/
def validPeriod (p : Nat × Nat) : Prop :=
  1000 ≤ p.1 ∧ p.1 ≤ 9999 ∧ 1 ≤ p.2 ∧ p.2 ≤ 12

instance (p : Nat × Nat) : Decidable (validPeriod p) := by
  unfold validPeriod; exact inferInstance

theorem validPeriod_of_validDate {d : Date} (h : validDate d) :
    validPeriod (d.year, d.month) := h

theorem digitChar_lt_iff :
    ∀ a, a < 10 → ∀ b, b < 10 →
      ((Nat.digitChar a < Nat.digitChar b) ↔ a < b) := by decide

theorem charListLt_cons_digit {a b : Nat} (ha : a < 10) (hb : b < 10)
    (as bs : List Char) :
    charListLt (Nat.digitChar a :: as) (Nat.digitChar b :: bs) =
      if a < b then true else if b < a then false else charListLt as bs := by
  simp only [charListLt]
  by_cases hab : a < b
  · rw [if_pos ((digitChar_lt_iff a ha b hb).mpr hab), if_pos hab]
  · rw [if_neg (fun hc => hab ((digitChar_lt_iff a ha b hb).mp hc)), if_neg hab]
    by_cases hba : b < a
    · rw [if_pos ((digitChar_lt_iff b hb a ha).mpr hba), if_pos hba]
    · rw [if_neg (fun hc => hba ((digitChar_lt_iff b hb a ha).mp hc)), if_neg hba]

theorem charListLt_cons_same (c : Char) (as bs : List Char) :
    charListLt (c :: as) (c :: bs) = charListLt as bs := by
  simp [charListLt]

theorem yearChars_of_valid {y : Nat} (h1 : 1000 ≤ y) (h2 : y ≤ 9999) :
    yearChars y = [Nat.digitChar (y / 1000), Nat.digitChar (y / 100 % 10),
      Nat.digitChar (y / 10 % 10), Nat.digitChar (y % 10)] := by
  unfold yearChars
  rw [if_neg (by omega), if_neg (by omega), if_neg (by omega)]

/-- Chronological strict order on periods. -/
def pairLt (p q : Nat × Nat) : Prop :=
  p.1 < q.1 ∨ (p.1 = q.1 ∧ p.2 < q.2)

instance (p q : Nat × Nat) : Decidable (pairLt p q) := by
  unfold pairLt; exact inferInstance

theorem keyLt_iff_of_valid {p q : Nat × Nat}
    (hp : validPeriod p) (hq : validPeriod q) :
    charListLt (keyOfPeriod p) (keyOfPeriod q) = true ↔ pairLt p q := by
  obtain ⟨y1, m1⟩ := p
  obtain ⟨y2, m2⟩ := q
  obtain ⟨hy1l, hy1r, hm1l, hm1r⟩ := hp
  obtain ⟨hy2l, hy2r, hm2l, hm2r⟩ := hq
  simp only at hy1l hy1r hm1l hm1r hy2l hy2r hm2l hm2r
  simp only [keyOfPeriod, monthChars, yearChars_of_valid hy1l hy1r,
    yearChars_of_valid hy2l hy2r, List.cons_append, List.nil_append]
  have ha1 : y1 / 1000 < 10 := by omega
  have ha2 : y1 / 100 % 10 < 10 := by omega
  have ha3 : y1 / 10 % 10 < 10 := by omega
  have ha4 : y1 % 10 < 10 := by omega
  have ha5 : m1 / 10 < 10 := by omega
  have ha6 : m1 % 10 < 10 := by omega
  have hb1 : y2 / 1000 < 10 := by omega
  have hb2 : y2 / 100 % 10 < 10 := by omega
  have hb3 : y2 / 10 % 10 < 10 := by omega
  have hb4 : y2 % 10 < 10 := by omega
  have hb5 : m2 / 10 < 10 := by omega
  have hb6 : m2 % 10 < 10 := by omega
  rw [charListLt_cons_digit ha1 hb1, charListLt_cons_digit ha2 hb2,
    charListLt_cons_digit ha3 hb3, charListLt_cons_digit ha4 hb4,
    charListLt_cons_same, charListLt_cons_digit ha5 hb5,
    charListLt_cons_digit ha6 hb6]
  unfold pairLt
  simp only
  by_cases hc1l : y1 / 1000 < y2 / 1000
  · rw [if_pos hc1l]
    exact iff_of_true rfl (by omega)
  rw [if_neg hc1l]
  by_cases hc1r : y2 / 1000 < y1 / 1000
  · rw [if_pos hc1r]
    exact iff_of_false Bool.false_ne_true (by omega)
  rw [if_neg hc1r]
  by_cases hc2l : y1 / 100 % 10 < y2 / 100 % 10
  · rw [if_pos hc2l]
    exact iff_of_true rfl (by omega)
  rw [if_neg hc2l]
  by_cases hc2r : y2 / 100 % 10 < y1 / 100 % 10
  · rw [if_pos hc2r]
    exact iff_of_false Bool.false_ne_true (by omega)
  rw [if_neg hc2r]
  by_cases hc3l : y1 / 10 % 10 < y2 / 10 % 10
  · rw [if_pos hc3l]
    exact iff_of_true rfl (by omega)
  rw [if_neg hc3l]
  by_cases hc3r : y2 / 10 % 10 < y1 / 10 % 10
  · rw [if_pos hc3r]
    exact iff_of_false Bool.false_ne_true (by omega)
  rw [if_neg hc3r]
  by_cases hc4l : y1 % 10 < y2 % 10
  · rw [if_pos hc4l]
    exact iff_of_true rfl (by omega)
  rw [if_neg hc4l]
  by_cases hc4r : y2 % 10 < y1 % 10
  · rw [if_pos hc4r]
    exact iff_of_false Bool.false_ne_true (by omega)
  rw [if_neg hc4r]
  by_cases hc5l : m1 / 10 < m2 / 10
  · rw [if_pos hc5l]
    exact iff_of_true rfl (by omega)
  rw [if_neg hc5l]
  by_cases hc5r : m2 / 10 < m1 / 10
  · rw [if_pos hc5r]
    exact iff_of_false Bool.false_ne_true (by omega)
  rw [if_neg hc5r]
  by_cases hc6l : m1 % 10 < m2 % 10
  · rw [if_pos hc6l]
    exact iff_of_true rfl (by omega)
  rw [if_neg hc6l]
  by_cases hc6r : m2 % 10 < m1 % 10
  · rw [if_pos hc6r]
    exact iff_of_false Bool.false_ne_true (by omega)
  rw [if_neg hc6r]
  exact iff_of_false Bool.false_ne_true (by omega)

theorem keyOfPeriod_inj_of_valid {p q : Nat × Nat}
    (hp : validPeriod p) (hq : validPeriod q) :
    keyOfPeriod p = keyOfPeriod q ↔ p = q := by
  constructor
  · intro h
    have h1 : charListLt (keyOfPeriod p) (keyOfPeriod q) = false := by
      rw [h]; exact charListLt_irrefl _
    have h2 : charListLt (keyOfPeriod q) (keyOfPeriod p) = false := by
      rw [h]; exact charListLt_irrefl _
    have n1 : ¬pairLt p q := fun hc =>
      by rw [(keyLt_iff_of_valid hp hq).mpr hc] at h1; simp at h1
    have n2 : ¬pairLt q p := fun hc =>
      by rw [(keyLt_iff_of_valid hq hp).mpr hc] at h2; simp at h2
    unfold pairLt at n1 n2
    have e1 : p.1 = q.1 := by omega
    have e2 : p.2 = q.2 := by omega
    exact Prod.ext e1 e2
  · intro h; rw [h]

/-! ### Decoding keys: injectivity over all datetime-representable dates -/

/-- A `datetime`-representable date: year 1..9999, month 1..12. -/
def reprDate (d : Date) : Prop :=
  1 ≤ d.year ∧ d.year ≤ 9999 ∧ 1 ≤ d.month ∧ d.month ≤ 12

instance (d : Date) : Decidable (reprDate d) := by
  unfold reprDate; exact inferInstance

/-- Representable (year, month) periods. -/
def reprPeriod (p : Nat × Nat) : Prop :=
  1 ≤ p.1 ∧ p.1 ≤ 9999 ∧ 1 ≤ p.2 ∧ p.2 ≤ 12

instance (p : Nat × Nat) : Decidable (reprPeriod p) := by
  unfold reprPeriod; exact inferInstance

theorem reprDate_of_validDate {d : Date} (h : validDate d) : reprDate d := by
  obtain ⟨h1, h2, h3, h4⟩ := h
  exact ⟨by omega, h2, h3, h4⟩

theorem reprPeriod_of_validPeriod {p : Nat × Nat} (h : validPeriod p) :
    reprPeriod p := by
  obtain ⟨h1, h2, h3, h4⟩ := h
  exact ⟨by omega, h2, h3, h4⟩

/-- Numeric value of a decimal digit character (proof-side decoder). -/
def charDigit (c : Char) : Nat := c.toNat - 48

/-- Decode a `"YYYY-MM"` key back to its (year, month) period
(proof-side inverse of `keyOfPeriod`). -/
def decodeKey (k : MonthKey) : Nat × Nat :=
  ((k.takeWhile fun c => c ≠ '-').foldl (fun a c => 10 * a + charDigit c) 0,
    ((k.dropWhile fun c => c ≠ '-').drop 1).foldl (fun a c => 10 * a + charDigit c) 0)

theorem charDigit_digitChar : ∀ d, d < 10 → charDigit (Nat.digitChar d) = d := by
  decide

theorem digitChar_ne_dash : ∀ d, d < 10 → Nat.digitChar d ≠ '-' := by decide

theorem takeWhile_digit_cons {d : Nat} (hd : d < 10) (l : List Char) :
    (Nat.digitChar d :: l).takeWhile (fun c => c ≠ '-') =
      Nat.digitChar d :: l.takeWhile (fun c => c ≠ '-') := by
  rw [List.takeWhile_cons]
  rw [decide_eq_true (digitChar_ne_dash d hd)]
  rw [if_pos rfl]

theorem dropWhile_digit_cons {d : Nat} (hd : d < 10) (l : List Char) :
    (Nat.digitChar d :: l).dropWhile (fun c => c ≠ '-') =
      l.dropWhile (fun c => c ≠ '-') := by
  rw [List.dropWhile_cons]
  rw [decide_eq_true (digitChar_ne_dash d hd)]
  rw [if_pos rfl]

theorem dropWhile_dash (l : List Char) :
    ('-' :: l).dropWhile (fun c => c ≠ '-') = '-' :: l := by
  rw [List.dropWhile_cons]
  simp

theorem takeWhile_dash (l : List Char) :
    ('-' :: l).takeWhile (fun c => c ≠ '-') = [] := by
  rw [List.takeWhile_cons]
  simp

theorem decodeKey_keyOfPeriod {p : Nat × Nat} (h1 : 1 ≤ p.1) (h2 : p.1 ≤ 9999)
    (h3 : p.2 ≤ 99) : decodeKey (keyOfPeriod p) = p := by
  obtain ⟨y, m⟩ := p
  simp only at h1 h2 h3
  have hm1 : m / 10 < 10 := by omega
  have hm2 : m % 10 < 10 := by omega
  unfold keyOfPeriod monthChars decodeKey
  simp only
  have hmonth : ∀ ds : List Char, (ds.takeWhile (fun c => c ≠ '-') = ds.takeWhile (fun c => c ≠ '-')) := fun _ => rfl
  by_cases hy10 : y < 10
  · rw [show yearChars y = [Nat.digitChar y] from by unfold yearChars; rw [if_pos hy10]]
    simp only [List.cons_append, List.nil_append]
    rw [takeWhile_digit_cons hy10, takeWhile_dash,
      dropWhile_digit_cons hy10, dropWhile_dash]
    simp only [List.foldl_cons, List.foldl_nil, List.drop_succ_cons, List.drop_nil,
      List.drop_zero]
    rw [charDigit_digitChar y hy10, charDigit_digitChar _ hm1,
      charDigit_digitChar _ hm2]
    refine Prod.ext ?_ ?_ <;> simp <;> omega
  · by_cases hy100 : y < 100
    · have d1 : y / 10 < 10 := by omega
      have d2 : y % 10 < 10 := by omega
      rw [show yearChars y = [Nat.digitChar (y / 10), Nat.digitChar (y % 10)] from by
        unfold yearChars; rw [if_neg hy10, if_pos hy100]]
      simp only [List.cons_append, List.nil_append]
      rw [takeWhile_digit_cons d1, takeWhile_digit_cons d2, takeWhile_dash,
        dropWhile_digit_cons d1, dropWhile_digit_cons d2, dropWhile_dash]
      simp only [List.foldl_cons, List.foldl_nil, List.drop_succ_cons, List.drop_zero]
      rw [charDigit_digitChar _ d1, charDigit_digitChar _ d2,
        charDigit_digitChar _ hm1, charDigit_digitChar _ hm2]
      refine Prod.ext ?_ ?_ <;> simp <;> omega
    · by_cases hy1000 : y < 1000
      · have d1 : y / 100 < 10 := by omega
        have d2 : y / 10 % 10 < 10 := by omega
        have d3 : y % 10 < 10 := by omega
        rw [show yearChars y = [Nat.digitChar (y / 100), Nat.digitChar (y / 10 % 10),
            Nat.digitChar (y % 10)] from by
          unfold yearChars; rw [if_neg hy10, if_neg hy100, if_pos hy1000]]
        simp only [List.cons_append, List.nil_append]
        rw [takeWhile_digit_cons d1, takeWhile_digit_cons d2, takeWhile_digit_cons d3,
          takeWhile_dash, dropWhile_digit_cons d1, dropWhile_digit_cons d2,
          dropWhile_digit_cons d3, dropWhile_dash]
        simp only [List.foldl_cons, List.foldl_nil, List.drop_succ_cons, List.drop_zero]
        rw [charDigit_digitChar _ d1, charDigit_digitChar _ d2, charDigit_digitChar _ d3,
          charDigit_digitChar _ hm1, charDigit_digitChar _ hm2]
        refine Prod.ext ?_ ?_ <;> simp <;> omega
      · have d1 : y / 1000 < 10 := by omega
        have d2 : y / 100 % 10 < 10 := by omega
        have d3 : y / 10 % 10 < 10 := by omega
        have d4 : y % 10 < 10 := by omega
        rw [yearChars_of_valid (by omega) h2]
        simp only [List.cons_append, List.nil_append]
        rw [takeWhile_digit_cons d1, takeWhile_digit_cons d2, takeWhile_digit_cons d3,
          takeWhile_digit_cons d4, takeWhile_dash, dropWhile_digit_cons d1,
          dropWhile_digit_cons d2, dropWhile_digit_cons d3, dropWhile_digit_cons d4,
          dropWhile_dash]
        simp only [List.foldl_cons, List.foldl_nil, List.drop_succ_cons, List.drop_zero]
        rw [charDigit_digitChar _ d1, charDigit_digitChar _ d2, charDigit_digitChar _ d3,
          charDigit_digitChar _ d4, charDigit_digitChar _ hm1, charDigit_digitChar _ hm2]
        refine Prod.ext ?_ ?_ <;> simp <;> omega

theorem keyOfPeriod_inj_of_repr {p q : Nat × Nat}
    (hp : reprPeriod p) (hq : reprPeriod q) :
    keyOfPeriod p = keyOfPeriod q ↔ p = q := by
  constructor
  · intro h
    have hd := congrArg decodeKey h
    obtain ⟨hp1, hp2, hp3, hp4⟩ := hp
    obtain ⟨hq1, hq2, hq3, hq4⟩ := hq
    rwa [decodeKey_keyOfPeriod hp1 hp2 (by omega),
      decodeKey_keyOfPeriod hq1 hq2 (by omega)] at hd
  · intro h; rw [h]


/-! ### The sorted month series, chronologically -/

theorem monthsChrono_nodup (bs : List BillingData) : (monthsChrono bs).Nodup :=
  ((List.mergeSort_perm _ _).nodup_iff).mpr (List.nodup_dedup _)

theorem mem_monthsChrono (bs : List BillingData) (p : Nat × Nat) :
    p ∈ monthsChrono bs ↔ ∃ bd ∈ bs, period bd = p := by
  unfold monthsChrono
  rw [(List.mergeSort_perm _ _).mem_iff, List.mem_dedup, List.mem_map]

theorem monthsChrono_sorted (bs : List BillingData) :
    (monthsChrono bs).Pairwise fun p q => pairLe p q :=
  List.sorted_mergeSort pairLe_trans pairLe_total _

theorem validPeriod_of_mem_monthsChrono {bs : List BillingData}
    (hv : ∀ bd ∈ bs, validDate bd.start_date) {p : Nat × Nat}
    (hp : p ∈ monthsChrono bs) : validPeriod p := by
  obtain ⟨bd, hbd, hper⟩ := (mem_monthsChrono bs p).mp hp
  exact hper ▸ validPeriod_of_validDate (hv bd hbd)

theorem reprPeriod_of_reprDate {d : Date} (h : reprDate d) :
    reprPeriod (d.year, d.month) := h

theorem keyTotal_eq_monthTotal (bs : List BillingData)
    (hv : ∀ bd ∈ bs, reprDate bd.start_date) {p : Nat × Nat}
    (hp : reprPeriod p) :
    keyTotal bs (keyOfPeriod p) = monthTotal bs p := by
  unfold keyTotal monthTotal
  have hfe : (bs.filter fun bd => monthKey bd.start_date = keyOfPeriod p) =
      bs.filter fun bd => period bd = p := by
    apply List.filter_congr
    intro bd hbd
    have hbv : reprPeriod (period bd) := reprPeriod_of_reprDate (hv bd hbd)
    have hiff : (monthKey bd.start_date = keyOfPeriod p) ↔ (period bd = p) := by
      have he : monthKey bd.start_date = keyOfPeriod (period bd) := rfl
      rw [he]
      exact keyOfPeriod_inj_of_repr hbv hp
    exact decide_eq_decide.mpr hiff
  rw [hfe]

theorem sortedMonths_eq_chrono (bs : List BillingData)
    (hv : ∀ bd ∈ bs, validDate bd.start_date) :
    LambdaFunction.sortedMonths bs =
      (monthsChrono bs).map fun p => (keyOfPeriod p, monthTotal bs p) := by
  haveI : IsAntisymm (MonthKey × ℚ) (fun a b => itemLe a b = true) :=
    ⟨fun a b hab hba => itemLe_antisymm hab hba⟩
  have hperm : List.Perm (LambdaFunction.sortedMonths bs)
      ((monthsChrono bs).map fun p => (keyOfPeriod p, monthTotal bs p)) := by
    refine (LambdaFunction.sortedMonths_perm bs).trans ?_
    rw [List.perm_ext_iff_of_nodup]
    · intro x
      rw [LambdaFunction.mem_groupByMonth_iff, List.mem_map]
      constructor
      · intro hx
        obtain ⟨⟨bd, hbd, hkey⟩, hval⟩ :=
          (LambdaFunction.groupByMonth_get_eq_some_iff bs x.1 x.2).mp hx
        refine ⟨period bd, (mem_monthsChrono bs _).mpr ⟨bd, hbd, rfl⟩, ?_⟩
        have hbv : validPeriod (period bd) := validPeriod_of_validDate (hv bd hbd)
        have hk : keyOfPeriod (period bd) = x.1 := hkey
        have hv' : monthTotal bs (period bd) = x.2 := by
          rw [← keyTotal_eq_monthTotal bs (fun bd h => reprDate_of_validDate (hv bd h))
            (reprPeriod_of_validPeriod hbv), hk, hval]
        rw [hk, hv']
      · rintro ⟨p, hp, hx⟩
        obtain ⟨bd, hbd, hper⟩ := (mem_monthsChrono bs p).mp hp
        have hpv : validPeriod p := validPeriod_of_mem_monthsChrono hv hp
        rw [← hx]
        apply (LambdaFunction.groupByMonth_get_eq_some_iff bs _ _).mpr
        refine ⟨⟨bd, hbd, ?_⟩, (keyTotal_eq_monthTotal bs
          (fun bd h => reprDate_of_validDate (hv bd h))
          (reprPeriod_of_validPeriod hpv)).symm⟩
        show keyOfPeriod (period bd) = keyOfPeriod p
        rw [hper]
    · exact (LambdaFunction.groupByMonth_nodup bs).of_map
    · refine List.Nodup.map_on ?_ (monthsChrono_nodup bs)
      intro x hx y hy hxy
      have hxv : validPeriod x := validPeriod_of_mem_monthsChrono hv hx
      have hyv : validPeriod y := validPeriod_of_mem_monthsChrono hv hy
      have : keyOfPeriod x = keyOfPeriod y := congrArg Prod.fst hxy
      exact (keyOfPeriod_inj_of_valid hxv hyv).mp this
  have hs1 : (LambdaFunction.sortedMonths bs).Pairwise
      (fun a b => itemLe a b = true) :=
    LambdaFunction.sortedMonths_pairwise bs
  have hs2 : ((monthsChrono bs).map fun p => (keyOfPeriod p, monthTotal bs p)).Pairwise
      (fun a b => itemLe a b = true) := by
    rw [List.pairwise_map]
    have hpw := (monthsChrono_sorted bs).and (monthsChrono_nodup bs)
    refine hpw.imp_of_mem ?_
    intro p q hp hq hpq
    have hpv : validPeriod p := validPeriod_of_mem_monthsChrono hv hp
    have hqv : validPeriod q := validPeriod_of_mem_monthsChrono hv hq
    have hlt : pairLt p q := by
      obtain ⟨hle, hne⟩ := hpq
      simp only [pairLe, Bool.or_eq_true, Bool.and_eq_true, decide_eq_true_eq] at hle
      unfold pairLt
      rcases hle with h | ⟨h1, h2⟩
      · exact Or.inl h
      · refine Or.inr ⟨h1, lt_of_le_of_ne h2 ?_⟩
        intro h3
        exact hne (Prod.ext h1 h3)
    have hkey : charListLt (keyOfPeriod p) (keyOfPeriod q) = true :=
      (keyLt_iff_of_valid hpv hqv).mpr hlt
    unfold itemLe
    rw [if_pos hkey]
  exact List.eq_of_perm_of_sorted hperm hs1 hs2

/-! ### Characterization of the pandas variant -/

theorem pandasMonthly_eq (bs : List BillingData) :
    Main.pandasMonthly bs = (monthsChrono bs).map fun p => (p, monthTotal bs p) :=
  rfl

theorem rollingMean12_getLast (xs : List ℚ) (h : xs ≠ []) :
    (Main.rollingMean12 xs).getLast? =
      some (if 11 ≤ xs.length - 1 then
              some (((xs.drop (xs.length - 1 - 11)).take 12).sum / 12)
            else none) := by
  have hn : 0 < xs.length := List.length_pos.mpr h
  unfold Main.rollingMean12
  rw [List.getLast?_eq_getElem?]
  simp only [List.length_map, List.length_range]
  rw [List.getElem?_map, List.getElem?_range (by omega)]
  rfl

theorem pandas_calc_characterization (bs : List BillingData) :
    Main.calculate_trailing_12_month_average bs =
      if (Main.pandasMonthly bs).length < 12 then 0
      else (((Main.pandasMonthly bs).drop
              ((Main.pandasMonthly bs).length - 12)).map Prod.snd).sum / 12 := by
  simp only [Main.calculate_trailing_12_month_average]
  by_cases hbs : bs.isEmpty
  · have hb : bs = [] := by
      rcases bs with _ | ⟨b, bs'⟩
      · rfl
      · simp at hbs
    subst hb
    rw [if_pos hbs]
    have hpm : Main.pandasMonthly [] = [] := by
      rw [pandasMonthly_eq]
      simp [monthsChrono]
    rw [hpm]
    simp
  · rw [if_neg hbs]
    have hbne : bs ≠ [] := by
      intro hh; rw [hh] at hbs; exact hbs rfl
    have hpne : Main.pandasMonthly bs ≠ [] := by
      obtain ⟨b, bs', rfl⟩ := List.exists_cons_of_ne_nil hbne
      intro hh
      have : period b ∈ monthsChrono (b :: bs') :=
        (mem_monthsChrono _ _).mpr ⟨b, List.mem_cons_self _ _, rfl⟩
      rw [pandasMonthly_eq] at hh
      rcases List.map_eq_nil_iff.mp hh with hmc
      rw [hmc] at this
      simp at this
    have hxne : (Main.pandasMonthly bs).map Prod.snd ≠ [] := by
      intro hh
      exact hpne (List.map_eq_nil_iff.mp hh)
    rw [rollingMean12_getLast _ hxne]
    simp only [List.length_map]
    by_cases h12 : (Main.pandasMonthly bs).length < 12
    · rw [if_neg (by omega), if_pos h12]
    · rw [if_pos (by omega), if_neg h12]
      have hlen : 12 ≤ (Main.pandasMonthly bs).length := by omega
      have he : (Main.pandasMonthly bs).length - 1 - 11 =
          (Main.pandasMonthly bs).length - 12 := by omega
      rw [he]
      rw [← List.map_drop]
      rw [List.take_of_length_le (by simp; omega)]

/-! ### Both variants through the chronological month table -/

theorem lambda_calc_characterization (bs : List BillingData)
    (hv : ∀ bd ∈ bs, validDate bd.start_date) :
    LambdaFunction.calculate_trailing_12_month_average bs =
      if (monthsChrono bs).length < 12 then 0
      else (((monthsChrono bs).drop ((monthsChrono bs).length - 12)).map
              (monthTotal bs)).sum / 12 := by
  have hsm := sortedMonths_eq_chrono bs hv
  have hlen : (LambdaFunction.sortedMonths bs).length = (monthsChrono bs).length := by
    rw [hsm]; simp
  by_cases h12 : (monthsChrono bs).length < 12
  · rw [if_pos h12]
    exact LambdaFunction.calc_eq_zero_of_lt12 bs (by omega)
  · rw [if_neg h12]
    rw [LambdaFunction.calc_eq_of_ge12 bs (by omega), hsm]
    simp only [List.length_map, ← List.map_drop, List.map_map]
    rfl

theorem pandas_eq_lambda_of_valid (bs : List BillingData)
    (hv : ∀ bd ∈ bs, validDate bd.start_date) :
    Main.calculate_trailing_12_month_average bs =
      LambdaFunction.calculate_trailing_12_month_average bs := by
  rw [pandas_calc_characterization, lambda_calc_characterization bs hv,
    pandasMonthly_eq]
  simp only [List.length_map]
  by_cases h12 : (monthsChrono bs).length < 12
  · rw [if_pos h12, if_pos h12]
  · rw [if_neg h12, if_neg h12]
    simp only [← List.map_drop, List.map_map]
    rfl

/-! ### Invariance lemmas -/

theorem keyTotal_perm {bs1 bs2 : List BillingData} (h : List.Perm bs1 bs2)
    (k : MonthKey) : keyTotal bs1 k = keyTotal bs2 k :=
  ((h.filter _).map _).sum_eq

theorem groupByMonth_eq_nil_iff (bs : List BillingData) :
    LambdaFunction.groupByMonth bs = [] ↔ bs = [] := by
  constructor
  · intro h
    rcases bs with _ | ⟨b, bs'⟩
    · rfl
    · have hmem : monthKey b.start_date ∈
          (LambdaFunction.groupByMonth (b :: bs')).map Prod.fst :=
        (LambdaFunction.groupByMonth_mem_keys_iff _ _).mpr
          ⟨b, List.mem_cons_self _ _, rfl⟩
      rw [h] at hmem
      simp at hmem
  · intro h; rw [h]; rfl

theorem groupByMonth_perm_of_perm {bs1 bs2 : List BillingData}
    (h : List.Perm bs1 bs2) :
    List.Perm (LambdaFunction.groupByMonth bs1) (LambdaFunction.groupByMonth bs2) := by
  rw [List.perm_ext_iff_of_nodup
    (LambdaFunction.groupByMonth_nodup bs1).of_map
    (LambdaFunction.groupByMonth_nodup bs2).of_map]
  intro x
  rw [LambdaFunction.mem_groupByMonth_iff, LambdaFunction.mem_groupByMonth_iff,
    LambdaFunction.groupByMonth_get_eq_some_iff,
    LambdaFunction.groupByMonth_get_eq_some_iff]
  constructor
  · rintro ⟨⟨bd, hbd, hk⟩, hval⟩
    exact ⟨⟨bd, h.mem_iff.mp hbd, hk⟩, hval.trans (keyTotal_perm h x.1)⟩
  · rintro ⟨⟨bd, hbd, hk⟩, hval⟩
    exact ⟨⟨bd, h.mem_iff.mpr hbd, hk⟩, hval.trans (keyTotal_perm h x.1).symm⟩

theorem calc_eq_of_groupByMonth_perm {bs1 bs2 : List BillingData}
    (hg : List.Perm (LambdaFunction.groupByMonth bs1)
      (LambdaFunction.groupByMonth bs2)) :
    LambdaFunction.calculate_trailing_12_month_average bs1 =
      LambdaFunction.calculate_trailing_12_month_average bs2 := by
  haveI : IsAntisymm (MonthKey × ℚ) (fun a b => itemLe a b = true) :=
    ⟨fun a b hab hba => itemLe_antisymm hab hba⟩
  have hsm : LambdaFunction.sortedMonths bs1 = LambdaFunction.sortedMonths bs2 :=
    List.eq_of_perm_of_sorted
      ((LambdaFunction.sortedMonths_perm bs1).trans
        (hg.trans (LambdaFunction.sortedMonths_perm bs2).symm))
      (LambdaFunction.sortedMonths_pairwise bs1)
      (LambdaFunction.sortedMonths_pairwise bs2)
  have hemp : bs1.isEmpty = bs2.isEmpty := by
    have h1 : bs1 = [] ↔ bs2 = [] := by
      rw [← groupByMonth_eq_nil_iff, ← groupByMonth_eq_nil_iff]
      constructor
      · intro hh
        have h2 := hg
        rw [hh] at h2
        exact h2.symm.eq_nil
      · intro hh
        have h2 := hg
        rw [hh] at h2
        exact h2.eq_nil
    rcases bs1 with _ | ⟨a, l⟩ <;> rcases bs2 with _ | ⟨b, m⟩ <;> simp_all
  unfold LambdaFunction.calculate_trailing_12_month_average
  rw [hemp, hsm]

theorem calc_eq_of_proj_eq {bs1 bs2 : List BillingData}
    (h : bs1.map (fun bd => (bd.start_date, bd.actual_kwh)) =
         bs2.map (fun bd => (bd.start_date, bd.actual_kwh))) :
    LambdaFunction.calculate_trailing_12_month_average bs1 =
      LambdaFunction.calculate_trailing_12_month_average bs2 := by
  have e : ∀ bs : List BillingData, LambdaFunction.groupByMonth bs =
      (bs.map fun bd => (bd.start_date, bd.actual_kwh)).foldl
        (fun acc pr => addUsage acc (monthKey pr.1) pr.2) [] := by
    intro bs
    unfold LambdaFunction.groupByMonth
    rw [List.foldl_map]
  have hg : LambdaFunction.groupByMonth bs1 = LambdaFunction.groupByMonth bs2 := by
    rw [e bs1, e bs2, h]
  have hemp : bs1.isEmpty = bs2.isEmpty := by
    have hlen : bs1.length = bs2.length := by
      have := congrArg List.length h
      simpa using this
    rcases bs1 with _ | ⟨a, l⟩ <;> rcases bs2 with _ | ⟨b, m⟩ <;> simp_all
  have hsm : LambdaFunction.sortedMonths bs1 = LambdaFunction.sortedMonths bs2 := by
    unfold LambdaFunction.sortedMonths
    rw [hg]
  unfold LambdaFunction.calculate_trailing_12_month_average
  rw [hemp, hsm]

theorem monthsChrono_append_older (bs extra : List BillingData) (p0 : Nat × Nat)
    (hep : ∀ e ∈ extra, period e = p0)
    (holder : ∀ b ∈ bs, pairLt p0 (period b))
    (hex : extra ≠ []) :
    monthsChrono (bs ++ extra) = p0 :: monthsChrono bs := by
  haveI : IsAntisymm (Nat × Nat) (fun a b => pairLe a b = true) :=
    ⟨fun a b hab hba => pairLe_antisymm hab hba⟩
  have hnotmem : p0 ∉ monthsChrono bs := by
    intro hmem
    obtain ⟨b, hb, hpb⟩ := (mem_monthsChrono bs p0).mp hmem
    have := holder b hb
    rw [hpb] at this
    unfold pairLt at this
    omega
  have hperm : List.Perm (monthsChrono (bs ++ extra)) (p0 :: monthsChrono bs) := by
    rw [List.perm_ext_iff_of_nodup (monthsChrono_nodup _)
      (List.nodup_cons.mpr ⟨hnotmem, monthsChrono_nodup bs⟩)]
    intro q
    rw [mem_monthsChrono, List.mem_cons, mem_monthsChrono]
    constructor
    · rintro ⟨bd, hbd, hper⟩
      rcases List.mem_append.mp hbd with hmem | hmem
      · exact Or.inr ⟨bd, hmem, hper⟩
      · exact Or.inl (by rw [← hper, hep bd hmem])
    · rintro (rfl | ⟨bd, hbd, hper⟩)
      · obtain ⟨e, he⟩ := List.exists_mem_of_ne_nil extra hex
        exact ⟨e, List.mem_append_right _ he, hep e he⟩
      · exact ⟨bd, List.mem_append_left _ hbd, hper⟩
  have hcons : (p0 :: monthsChrono bs).Pairwise (fun a b => pairLe a b = true) := by
    refine List.Pairwise.cons ?_ (monthsChrono_sorted bs)
    intro q hq
    obtain ⟨b, hb, hpb⟩ := (mem_monthsChrono bs q).mp hq
    have hlt := holder b hb
    rw [hpb] at hlt
    unfold pairLt at hlt
    simp only [pairLe, Bool.or_eq_true, Bool.and_eq_true, decide_eq_true_eq]
    omega
  exact List.eq_of_perm_of_sorted hperm (monthsChrono_sorted _) hcons

theorem monthTotal_append_of_ne (bs extra : List BillingData) (p0 q : Nat × Nat)
    (hep : ∀ e ∈ extra, period e = p0) (hne : q ≠ p0) :
    monthTotal (bs ++ extra) q = monthTotal bs q := by
  unfold monthTotal
  rw [List.filter_append]
  have hnil : extra.filter (fun bd => period bd = q) = [] := by
    rw [List.filter_eq_nil_iff]
    intro e he
    simp only [decide_eq_true_eq]
    rw [hep e he]
    exact fun hh => hne hh.symm
  rw [hnil, List.append_nil]

/-! ### Truncation toward zero -/

theorem int_trunc_of_nonneg (q : ℚ) (h : 0 ≤ q) : int_trunc q = ⌊q⌋ := by
  unfold int_trunc
  rw [if_pos (Rat.num_nonneg.mpr h)]
  have hq : q = ((q.num.natAbs : ℚ)) / ((q.den : ℚ)) := by
    rw [show ((q.num.natAbs : ℚ)) = ((q.num : ℤ) : ℚ) from by
      rw [← Int.cast_natCast, Int.natAbs_of_nonneg (Rat.num_nonneg.mpr h)]]
    exact (Rat.num_div_den q).symm
  conv_rhs => rw [hq]
  rw [Rat.floor_natCast_div_natCast]
  exact Int.ofNat_div _ _

theorem int_trunc_eq_truncSpec (q : ℚ) : int_trunc q = truncSpec q := by
  unfold truncSpec
  by_cases h : 0 ≤ q
  · rw [if_pos h]
    exact int_trunc_of_nonneg q h
  · rw [if_neg h]
    have hneg : 0 ≤ -q := by linarith [lt_of_not_le h]
    have h1 : int_trunc q = -int_trunc (-q) := by
      unfold int_trunc
      have hn : ¬0 ≤ q.num := fun hh => h (Rat.num_nonneg.mp hh)
      have hn' : 0 ≤ (-q).num := Rat.num_nonneg.mpr hneg
      rw [if_neg hn, if_pos hn']
      have e1 : (-q).num.natAbs = q.num.natAbs := by
        rw [show (-q).num = -q.num from rfl, Int.natAbs_neg]
      have e2 : (-q).den = q.den := rfl
      rw [e1, e2]
    rw [h1, int_trunc_of_nonneg (-q) hneg]
    have : ⌈q⌉ = -⌊-q⌋ := rfl
    rw [this]

/-! ### Concrete scenarios -/

/-- A record with the given year, month and usage; the remaining fields
take fixed placeholder values. -/
def mkRecord (y m : Nat) (v : ℚ) : BillingData :=
  { start_date := ⟨y, m, 1⟩, end_date := ⟨y, m, 28⟩, revision_date := ⟨y, m, 28⟩,
    actual_kwh := v, metered_kw := 10, billed_kw := 10,
    metered_kva := 10, billed_kva := 10 }

/-- The spec's 13-month scenario: 2023-12 through 2024-12 with usages
1000, 1010, ..., 1120. -/
def example13 : List BillingData :=
  (List.range 13).map fun i =>
    if i = 0 then mkRecord 2023 12 1000 else mkRecord 2024 i (1000 + 10 * i)

/-- Six months only (insufficient history). -/
def example6 : List BillingData :=
  (List.range 6).map fun i => mkRecord 2024 (i + 1) 1000

/-- Twelve months of year 1000, each with zero usage. -/
def example12zero : List BillingData :=
  (List.range 12).map fun i => mkRecord 1000 (i + 1) 0

/-- One record in year 999: chronologically before everything in
`example12zero`, but its `"YYYY-MM"` string `"999-01"` sorts after
`"1000-12"` lexicographically. -/
def exampleOld : List BillingData := [mkRecord 999 1 1200]

/-- Twelve months of 2024 with 1000 kWh each. -/
def example12y2024 : List BillingData :=
  (List.range 12).map fun i => mkRecord 2024 (i + 1) 1000

/-- One record of 2023-12: a month strictly older than everything in
`example12y2024`, with a four-digit year. -/
def exampleOld2023 : List BillingData := [mkRecord 2023 12 777]

/-- Thirteen distinct months whose string sort is not chronological. -/
def exampleYear999 : List BillingData := example12zero ++ exampleOld

/-- Twelve months with two 500 kWh records each. -/
def exampleDup : List BillingData :=
  ((List.range 12).map fun i => mkRecord 2024 (i + 1) 500) ++
    ((List.range 12).map fun i => mkRecord 2024 (i + 1) 500)

/-- `example13` with every field other than `start_date` and
`actual_kwh` changed. -/
def example13alt : List BillingData :=
  example13.map fun bd =>
    { start_date := bd.start_date, end_date := ⟨1, 1, 1⟩,
      revision_date := ⟨2, 2, 2⟩, actual_kwh := bd.actual_kwh,
      metered_kw := 0, billed_kw := 99, metered_kva := 5, billed_kva := 7 }

set_option maxRecDepth 10000

/-! ### The claims -/

/-- Claim C1 (amended with the year range the string sort needs): for every
input whose records have `datetime` years in 1000..9999 and cover at least 12
distinct months, the Trailing Average Engine returns the arithmetic mean of
the monthly totals of the 12 chronologically most recent distinct months
present in the input (sum of those 12 totals divided by 12). -/
theorem C1_trailing_average_of_recent_12 (bs : List BillingData)
    (hv : ∀ bd ∈ bs, validDate bd.start_date)
    (h12 : 12 ≤ (monthsChrono bs).length) :
    LambdaFunction.calculate_trailing_12_month_average bs =
      (((monthsChrono bs).drop ((monthsChrono bs).length - 12)).map
        (monthTotal bs)).sum / 12 := by
  rw [lambda_calc_characterization bs hv, if_neg (by omega)]

/-- Claim C1 witness: the 13-month scenario (2023-12 .. 2024-12 with totals
1000, 1010, ..., 1120) satisfies the hypotheses, and the result is 1065. -/
theorem C1_trailing_average_of_recent_12_witness :
    (∀ bd ∈ example13, validDate bd.start_date) ∧
    12 ≤ (monthsChrono example13).length ∧
    LambdaFunction.calculate_trailing_12_month_average example13 =
      (((monthsChrono example13).drop ((monthsChrono example13).length - 12)).map
        (monthTotal example13)).sum / 12 ∧
    LambdaFunction.calculate_trailing_12_month_average example13 = 1065 :=
  ⟨by with_unfolding_all decide, by with_unfolding_all decide,
    C1_trailing_average_of_recent_12 example13 (by with_unfolding_all decide)
      (by with_unfolding_all decide),
    by with_unfolding_all decide⟩

/-- Claim C1 counterexample (to the claim as stated, without a year bound):
`exampleYear999` has 13 distinct months, but the month of year 999 sorts
lexicographically after the year-1000 months, so the engine averages the
wrong window: it returns 100, not the chronological trailing mean 0. -/
theorem C1_counterexample :
    12 ≤ (monthsChrono exampleYear999).length ∧
    LambdaFunction.calculate_trailing_12_month_average exampleYear999 ≠
      (((monthsChrono exampleYear999).drop
          ((monthsChrono exampleYear999).length - 12)).map
        (monthTotal exampleYear999)).sum / 12 := by
  exact ⟨by with_unfolding_all decide, by with_unfolding_all decide⟩

/-- Claim C2: for every input with fewer than 12 distinct month keys —
including the empty collection — the engine returns exactly 0.0, and the
checked evaluation raises no error (returns `some`). -/
theorem C2_insufficient_history (bs : List BillingData)
    (h : ((bs.map fun bd => monthKey bd.start_date).dedup).length < 12) :
    LambdaFunction.calculate_trailing_12_month_average bs = 0 ∧
    LambdaFunction.calc_checked bs = some 0 := by
  have h0 : (LambdaFunction.sortedMonths bs).length < 12 := by
    rw [LambdaFunction.sortedMonths_length]
    exact h
  have h1 := LambdaFunction.calc_eq_zero_of_lt12 bs h0
  refine ⟨h1, ?_⟩
  rw [LambdaFunction.calc_checked_eq, h1]

/-- Claim C2 witness: a six-month input and the empty input both satisfy the
hypothesis and both yield `0.0` without error. -/
theorem C2_insufficient_history_witness :
    (((example6.map fun bd => monthKey bd.start_date).dedup).length < 12 ∧
      LambdaFunction.calculate_trailing_12_month_average example6 = 0 ∧
      LambdaFunction.calc_checked example6 = some 0) ∧
    (((([] : List BillingData).map fun bd => monthKey bd.start_date).dedup).length
        < 12 ∧
      LambdaFunction.calculate_trailing_12_month_average [] = 0 ∧
      LambdaFunction.calc_checked [] = some 0) :=
  ⟨⟨by with_unfolding_all decide,
      C2_insufficient_history example6 (by with_unfolding_all decide)⟩,
    ⟨by decide, C2_insufficient_history [] (by decide)⟩⟩

/-- Claim C3 (amended with the year range the string sort needs): for every
input whose records have `datetime` years in 1000..9999, the pandas
rolling-window implementation (`main.py`) and the pure-Python
dictionary-grouping implementation (`lambda_function.py`) return identical
results. -/
theorem C3_variants_agree (bs : List BillingData)
    (hv : ∀ bd ∈ bs, validDate bd.start_date) :
    Main.calculate_trailing_12_month_average bs =
      LambdaFunction.calculate_trailing_12_month_average bs :=
  pandas_eq_lambda_of_valid bs hv

/-- Claim C3 witness: on the 13-month scenario both variants agree (and both
compute 1065). -/
theorem C3_variants_agree_witness :
    (∀ bd ∈ example13, validDate bd.start_date) ∧
    Main.calculate_trailing_12_month_average example13 =
      LambdaFunction.calculate_trailing_12_month_average example13 ∧
    Main.calculate_trailing_12_month_average example13 = 1065 :=
  ⟨by with_unfolding_all decide,
    C3_variants_agree example13 (by with_unfolding_all decide),
    by with_unfolding_all decide⟩

/-- Claim C3 counterexample (to the claim as stated, over all representable
inputs): on `exampleYear999` (a year-999 month plus twelve year-1000 months)
the pandas variant groups by chronological periods while the pure-Python
variant sorts `"YYYY-MM"` strings, and the two disagree (0 versus 100). -/
theorem C3_counterexample :
    Main.calculate_trailing_12_month_average exampleYear999 ≠
      LambdaFunction.calculate_trailing_12_month_average exampleYear999 := by
  with_unfolding_all decide

/-- Claim C4: over every `datetime`-representable input, the Monthly
Aggregator produces one bucket per distinct month occurring in the input
(bucket keys are distinct; a key exists exactly for the months present; keys
coincide exactly when the calendar months coincide), and the bucket of a
record month holds the sum of `actual_kwh` over all records of that month. -/
theorem C4_monthly_aggregator (bs : List BillingData)
    (hv : ∀ bd ∈ bs, reprDate bd.start_date) :
    ((LambdaFunction.groupByMonth bs).map Prod.fst).Nodup ∧
    (∀ k, k ∈ (LambdaFunction.groupByMonth bs).map Prod.fst ↔
      ∃ bd ∈ bs, monthKey bd.start_date = k) ∧
    (∀ bd1 ∈ bs, ∀ bd2 ∈ bs,
      (monthKey bd1.start_date = monthKey bd2.start_date ↔
        period bd1 = period bd2)) ∧
    (∀ bd ∈ bs, dictGet (LambdaFunction.groupByMonth bs) (monthKey bd.start_date) =
      some (monthTotal bs (period bd))) := by
  refine ⟨LambdaFunction.groupByMonth_nodup bs,
    fun k => LambdaFunction.groupByMonth_mem_keys_iff bs k, ?_, ?_⟩
  · intro bd1 h1 bd2 h2
    exact keyOfPeriod_inj_of_repr (reprPeriod_of_reprDate (hv bd1 h1))
      (reprPeriod_of_reprDate (hv bd2 h2))
  · intro bd hbd
    rw [LambdaFunction.groupByMonth_get_eq_some_iff]
    exact ⟨⟨bd, hbd, rfl⟩,
      (keyTotal_eq_monthTotal bs hv (reprPeriod_of_reprDate (hv bd hbd))).symm⟩

/-- Claim C4 witness: twelve months with two 500 kWh records each give
per-month totals of 1000 and a trailing average of 1000. -/
theorem C4_monthly_aggregator_witness :
    (∀ bd ∈ exampleDup, reprDate bd.start_date) ∧
    (∀ bd ∈ exampleDup,
      dictGet (LambdaFunction.groupByMonth exampleDup) (monthKey bd.start_date) =
        some (monthTotal exampleDup (period bd))) ∧
    (∀ p ∈ monthsChrono exampleDup, monthTotal exampleDup p = 1000) ∧
    LambdaFunction.calculate_trailing_12_month_average exampleDup = 1000 :=
  ⟨by with_unfolding_all decide,
    (C4_monthly_aggregator exampleDup (by with_unfolding_all decide)).2.2.2,
    by with_unfolding_all decide, by with_unfolding_all decide⟩

/-- Claim C5 (amended with the year range the string sort needs): for every
input with `datetime` years in 1000..9999 and at least 12 distinct months,
adding records for one additional month strictly older than all existing
months leaves the output unchanged. -/
theorem C5_older_month_irrelevant (bs extra : List BillingData) (p0 : Nat × Nat)
    (hv : ∀ bd ∈ bs ++ extra, validDate bd.start_date)
    (h12 : 12 ≤ (monthsChrono bs).length)
    (hep : ∀ e ∈ extra, period e = p0)
    (holder : ∀ b ∈ bs, pairLt p0 (period b)) :
    LambdaFunction.calculate_trailing_12_month_average (bs ++ extra) =
      LambdaFunction.calculate_trailing_12_month_average bs := by
  by_cases hex : extra = []
  · rw [hex, List.append_nil]
  · have hvbs : ∀ bd ∈ bs, validDate bd.start_date :=
      fun bd h => hv bd (List.mem_append_left _ h)
    have hnotmem : p0 ∉ monthsChrono bs := by
      intro hmem
      obtain ⟨b, hb, hpb⟩ := (mem_monthsChrono bs p0).mp hmem
      have hlt := holder b hb
      rw [hpb] at hlt
      unfold pairLt at hlt
      omega
    rw [lambda_calc_characterization _ hv, lambda_calc_characterization bs hvbs,
      monthsChrono_append_older bs extra p0 hep holder hex]
    simp only [List.length_cons]
    rw [if_neg (by omega), if_neg (by omega)]
    have e1 : (monthsChrono bs).length + 1 - 12 =
        ((monthsChrono bs).length - 12) + 1 := by omega
    rw [e1, List.drop_succ_cons]
    congr 1
    congr 1
    apply List.map_congr_left
    intro q hq
    have hqmem : q ∈ monthsChrono bs := List.drop_subset _ _ hq
    apply monthTotal_append_of_ne bs extra p0 q hep
    intro hqp
    exact hnotmem (hqp ▸ hqmem)

/-- Claim C5 witness: appending a strictly older 2023-12 month to twelve
2024 months leaves the engine output unchanged. -/
theorem C5_older_month_irrelevant_witness :
    (∀ bd ∈ example12y2024 ++ exampleOld2023, validDate bd.start_date) ∧
    12 ≤ (monthsChrono example12y2024).length ∧
    (∀ e ∈ exampleOld2023, period e = (2023, 12)) ∧
    LambdaFunction.calculate_trailing_12_month_average
        (example12y2024 ++ exampleOld2023) =
      LambdaFunction.calculate_trailing_12_month_average example12y2024 :=
  ⟨by with_unfolding_all decide, by with_unfolding_all decide,
    by with_unfolding_all decide,
    C5_older_month_irrelevant example12y2024 exampleOld2023 (2023, 12)
      (by with_unfolding_all decide) (by with_unfolding_all decide)
      (by with_unfolding_all decide) (by with_unfolding_all decide)⟩

/-- Claim C5 counterexample (to the claim as stated, without a year bound):
adding the strictly older month 999-01 to twelve year-1000 months changes the
output from 0 to 100, although the most recent 12 monthly totals are
unchanged. -/
theorem C5_counterexample :
    12 ≤ (monthsChrono example12zero).length ∧
    (∀ e ∈ exampleOld, period e = (999, 1)) ∧
    (∀ b ∈ example12zero, pairLt (999, 1) (period b)) ∧
    (∀ p ∈ monthsChrono example12zero,
      monthTotal (example12zero ++ exampleOld) p = monthTotal example12zero p) ∧
    LambdaFunction.calculate_trailing_12_month_average
        (example12zero ++ exampleOld) ≠
      LambdaFunction.calculate_trailing_12_month_average example12zero := by
  refine ⟨?_, ?_, ?_, ?_, ?_⟩ <;> with_unfolding_all decide

/-- Claim C6: the engine is deterministic and permutation-invariant — every
permutation of the input records yields the identical result, and more
generally the output depends only on the multiset of (month key, total)
pairs produced by aggregation. -/
theorem C6_permutation_invariance (bs1 bs2 : List BillingData) :
    (List.Perm bs1 bs2 →
      LambdaFunction.calculate_trailing_12_month_average bs1 =
        LambdaFunction.calculate_trailing_12_month_average bs2) ∧
    (List.Perm (LambdaFunction.groupByMonth bs1) (LambdaFunction.groupByMonth bs2) →
      LambdaFunction.calculate_trailing_12_month_average bs1 =
        LambdaFunction.calculate_trailing_12_month_average bs2) :=
  ⟨fun h => calc_eq_of_groupByMonth_perm (groupByMonth_perm_of_perm h),
    fun h => calc_eq_of_groupByMonth_perm h⟩

/-- Claim C6 witness: reversing the 13-month scenario's record order leaves
the result unchanged. -/
theorem C6_permutation_invariance_witness :
    List.Perm example13 example13.reverse ∧
    LambdaFunction.calculate_trailing_12_month_average example13 =
      LambdaFunction.calculate_trailing_12_month_average example13.reverse :=
  ⟨(List.reverse_perm example13).symm,
    (C6_permutation_invariance example13 example13.reverse).1
      (List.reverse_perm example13).symm⟩

/-- Claim C7: the Target Calculator computes `target_amount = average × rate`
and `scaled_target` as the truncation toward zero of `target_amount × 1000`;
in particular average 1065 and rate 0.17754 give target 1065 × 0.17754 and
scaled target 189080. -/
theorem C7_target_calculator :
    (∀ trailing_avg_kwh current_kwh_rate : ℚ,
      update_electric_bill_target trailing_avg_kwh current_kwh_rate =
        (trailing_avg_kwh * current_kwh_rate,
          truncSpec (trailing_avg_kwh * current_kwh_rate * 1000))) ∧
    (update_electric_bill_target 1065 (17754 / 100000)).1 =
      1065 * (17754 / 100000) ∧
    (update_electric_bill_target 1065 (17754 / 100000)).2 = 189080 := by
  refine ⟨?_, rfl, by with_unfolding_all decide⟩
  intro a r
  show (a * r, int_trunc (a * r * 1000)) = (a * r, truncSpec (a * r * 1000))
  rw [int_trunc_eq_truncSpec]

/-- Claim C8: the core computation is total — for every input the checked
evaluation, in which every fallible operation (the list subscripts, the
dictionary lookup) is explicit, returns `some` of the value the plain
computation returns; no exception path is reachable. -/
theorem C8_core_is_total (bs : List BillingData) :
    LambdaFunction.calc_checked bs =
      some (LambdaFunction.calculate_trailing_12_month_average bs) :=
  LambdaFunction.calc_checked_eq bs

/-- Claim C9: the engine's output is unaffected by every record field other
than `start_date` and `actual_kwh`: two inputs that agree on the
(start_date, actual_kwh) projections agree on the computed average. -/
theorem C9_other_fields_irrelevant (bs1 bs2 : List BillingData)
    (h : bs1.map (fun bd => (bd.start_date, bd.actual_kwh)) =
         bs2.map (fun bd => (bd.start_date, bd.actual_kwh))) :
    LambdaFunction.calculate_trailing_12_month_average bs1 =
      LambdaFunction.calculate_trailing_12_month_average bs2 :=
  calc_eq_of_proj_eq h

/-- Claim C9 witness: changing `end_date`, `revision_date` and all four
power-demand fields of every record of the 13-month scenario leaves the
result unchanged. -/
theorem C9_other_fields_irrelevant_witness :
    (example13.map (fun bd => (bd.start_date, bd.actual_kwh)) =
      example13alt.map (fun bd => (bd.start_date, bd.actual_kwh))) ∧
    LambdaFunction.calculate_trailing_12_month_average example13 =
      LambdaFunction.calculate_trailing_12_month_average example13alt :=
  ⟨by with_unfolding_all decide,
    C9_other_fields_irrelevant example13 example13alt
      (by with_unfolding_all decide)⟩

/-- Claim C10: for inputs whose start dates have years between 1000 and 9999,
lexicographic order on the `"YYYY-MM"` keys coincides with chronological
order on the underlying (year, month) pairs, so the engine's sorted monthly
series is the key image of the chronologically ascending distinct-month list
— in particular its last element is the most recent month. -/
theorem C10_lexicographic_is_chronological (bs : List BillingData)
    (hv : ∀ bd ∈ bs, validDate bd.start_date) :
    (∀ bd1 ∈ bs, ∀ bd2 ∈ bs,
      (charListLt (monthKey bd1.start_date) (monthKey bd2.start_date) = true ↔
        pairLt (period bd1) (period bd2))) ∧
    (LambdaFunction.sortedMonths bs).map Prod.fst =
      (monthsChrono bs).map keyOfPeriod := by
  constructor
  · intro bd1 h1 bd2 h2
    exact keyLt_iff_of_valid (validPeriod_of_validDate (hv bd1 h1))
      (validPeriod_of_validDate (hv bd2 h2))
  · rw [sortedMonths_eq_chrono bs hv, List.map_map]
    rfl

/-- Claim C10 witness: the hypotheses hold for the 13-month scenario, whose
sorted key sequence is the key image of its chronological month list. -/
theorem C10_lexicographic_is_chronological_witness :
    (∀ bd ∈ example13, validDate bd.start_date) ∧
    (LambdaFunction.sortedMonths example13).map Prod.fst =
      (monthsChrono example13).map keyOfPeriod :=
  ⟨by with_unfolding_all decide,
    (C10_lexicographic_is_chronological example13
      (by with_unfolding_all decide)).2⟩
